import Mathlib

/-!
Verification of the Secure Wallet & Remote-Registration subsystem of the
bevy-game desktop wallet (src/bevy-game/src/main.rs).

The Rust code is shallowly embedded: pure functions become Lean functions,
strings are modelled as `String` or `List Char` (character lists; Rust string
slices), byte strings as `List Nat`, `f64` balance arithmetic as exact
rationals `ℚ`, and the Bevy resource records (`BalanceState`,
`RegistrationState`, `AsyncTasks`) as Lean structures with the per-tick
system bodies as explicit state-transition functions.  Cryptographic
primitives (BIP-39 parsing/seeding, secp256k1, Keccak-256) are parameters of
the embedding: the embedded functions are proved correct for every choice of
primitive, which covers the concrete library implementations.
-/

deriving instance DecidableEq for Except

namespace GalaWallet

/-! ### Error taxonomy (main.rs lines 40-46 and 213-220) -/

/-- `KeychainError` from main.rs lines 40-46. -/
inductive KeychainError where
  | NotFound
  | Access (msg : String)
  | Serialize (msg : String)
  | Deserialize (msg : String)
deriving DecidableEq

/-- `GalaChainError` from main.rs lines 213-220. -/
inductive GalaChainError where
  | Network (msg : String)
  | Auth (msg : String)
  | Parse (msg : String)
  | Api (msg : String)
  | NotRegistered
deriving DecidableEq

/-- The `Display` rendering of `GalaChainError` (main.rs lines 222-232);
`e.to_string()` in the polling systems goes through this. -/
def galaErrorMessage : GalaChainError → String
  | .Network msg => "Network error: " ++ msg
  | .Auth msg => "Authentication error: " ++ msg
  | .Parse msg => "Parsing error: " ++ msg
  | .Api msg => "API error: " ++ msg
  | .NotRegistered => "User not registered with GalaChain"

/-! ### C1: mnemonic-to-key derivation (main.rs lines 181-203)

`KeychainManager::generate_wallet_from_mnemonic` composes library
primitives.  They are gathered in `CryptoOps` as abstract functions; the
embedding below mirrors the Rust control flow over them. -/

/-- The cryptographic primitives used by `generate_wallet_from_mnemonic`.
`parse_in_normalized` stands for `Mnemonic::parse_in_normalized` (result
represented by the normalized phrase), `to_seed` for `Mnemonic::to_seed ""`
(64 bytes), `secret_from_slice` for `SecretKey::from_slice`,
`pub_uncompressed` for `PublicKey::serialize_uncompressed` of the derived
public key (65 bytes), `keccak256` for the Keccak-256 digest (32 bytes).
All are (mathematical) functions, hence single-valued. -/
structure CryptoOps where
  parse_in_normalized : String → Except String String
  to_seed : String → List Nat
  secret_from_slice : List Nat → Except String (List Nat)
  pub_uncompressed : List Nat → List Nat
  keccak256 : List Nat → List Nat

/-- Hex digit character for a value below 16 (lowercase, as `hex::encode`). -/
def hexDigitChar (n : Nat) : Char :=
  if n < 10 then Char.ofNat (48 + n) else Char.ofNat (87 + n)

/-- Lowercase hex encoding of a byte list, as Rust `hex::encode`. -/
def hexEncode (bytes : List Nat) : String :=
  String.mk (bytes.flatMap (fun b => [hexDigitChar (b / 16), hexDigitChar (b % 16)]))

/-- `KeychainManager::generate_wallet_from_mnemonic` (main.rs lines 181-203):
parse the phrase, derive the 64-byte seed with empty passphrase, take the
first 32 bytes as the secret key, derive the uncompressed public key, hash
its last 64 bytes (skipping the prefix byte) with Keccak-256, and render
the last 20 hash bytes as the `0x`-prefixed address. -/
def generate_wallet_from_mnemonic (ops : CryptoOps) (mnemonic : String) :
    Except String (List Nat × String) :=
  match ops.parse_in_normalized mnemonic with
  | .error e => .error ("Invalid mnemonic: " ++ e)
  | .ok parsed =>
    let seed := ops.to_seed parsed
    match ops.secret_from_slice (seed.take 32) with
    | .error e => .error ("Failed to create private key: " ++ e)
    | .ok secret_key =>
      let public_key_bytes := ops.pub_uncompressed secret_key
      let hash := ops.keccak256 (public_key_bytes.drop 1)
      .ok (secret_key, "0x" ++ hexEncode (hash.drop 12))

/-! ### C4/C5: retry helper (main.rs lines 412-435)

`GalaChainClient::retry_request` runs `operation` for attempts
`0..=max_retries`, returning on the first success; after a failed attempt
`i < max_retries` it sleeps `1000 << i` milliseconds.  The embedding runs an
attempt-indexed operation and additionally records the number of attempts
performed and the list of delays slept, so the claims about the retry
schedule can be stated.  (`1000 << i` is modelled as `1000 * 2 ^ i`, exact
for every attempt index used by the client, which never exceeds 3.) -/

/-- Observable trace of one `retry_request` call: the returned result, the
number of attempts performed, and the backoff delays (in milliseconds)
slept between attempts. -/
structure RetryTrace (ε α : Type) where
  result : Except ε α
  attempts : Nat
  delays : List Nat

/-- The loop of `retry_request`, with `fuel` remaining retries after the
current `attempt`.  With `fuel = 0` the current attempt is the last one and
its error (if any) is the `last_error` the Rust code returns. -/
def retryGo (operation : Nat → Except ε α) (attempt : Nat) :
    Nat → RetryTrace ε α
  | 0 =>
    match operation attempt with
    | .ok a => ⟨.ok a, 1, []⟩
    | .error e => ⟨.error e, 1, []⟩
  | fuel + 1 =>
    match operation attempt with
    | .ok a => ⟨.ok a, 1, []⟩
    | .error _ =>
      let rest := retryGo operation (attempt + 1) fuel
      ⟨rest.result, rest.attempts + 1, (1000 * 2 ^ attempt) :: rest.delays⟩

/-- `GalaChainClient::retry_request` (main.rs lines 412-435) over an
attempt-indexed operation. -/
def retry_request (operation : Nat → Except ε α) (max_retries : Nat) :
    RetryTrace ε α :=
  retryGo operation 0 max_retries

/-- Call-site retry budget for registration checks (main.rs line 528). -/
def check_registration_max_retries : Nat := 2

/-- Call-site retry budget for user registration (main.rs line 585). -/
def register_user_max_retries : Nat := 3

/-- Call-site retry budget for balance fetches (main.rs line 665). -/
def get_balance_max_retries : Nat := 3

/-- A concrete, fully computable instantiation of the primitives, used to
exercise the derivation theorems on closed inputs (the theorems themselves
hold for every instantiation, the real libraries included). -/
def demoCryptoOps : CryptoOps where
  parse_in_normalized := fun s => .ok s
  to_seed := fun _ => List.replicate 64 1
  secret_from_slice := fun bytes => .ok bytes
  pub_uncompressed := fun key => 4 :: key ++ key
  keccak256 := fun bytes => bytes.take 32

/-! ### Character-list utilities shared by the embeddings

Rust string slices are modelled as `List Char`.  The helpers below mirror
the exact `str` methods the source uses; each is named after its Rust
counterpart. -/

/-- ASCII whitespace test; model of `char::is_whitespace` for the
characters that can appear in this subsystem's data. -/
def isWs (c : Char) : Bool := c = ' ' || c = '\t' || c = '\n' || c = '\r'

/-- Rust `str::trim`: remove leading and trailing whitespace. -/
def trimChars (l : List Char) : List Char :=
  ((l.dropWhile isWs).reverse.dropWhile isWs).reverse

/-- Rust `str::trim_matches('"')`: repeatedly strip the quote character
from both ends. -/
def trimQuotes (l : List Char) : List Char :=
  ((l.dropWhile (fun c => c = '"')).reverse.dropWhile (fun c => c = '"')).reverse

/-- Rust `str::find(target)` plus slicing: split at the first occurrence of
`target`, which is dropped; `none` when the character does not occur. -/
def splitAtFirst (target : Char) : List Char → Option (List Char × List Char)
  | [] => none
  | c :: rest =>
    if c = target then some ([], rest)
    else
      match splitAtFirst target rest with
      | none => none
      | some (a, b) => some (c :: a, b)

/-- Rust `str::split(target)`: the list of fragments between occurrences of
`target` (always nonempty; the empty string yields one empty fragment). -/
def splitOnChar (target : Char) : List Char → List (List Char)
  | [] => [[]]
  | c :: rest =>
    match splitOnChar target rest with
    | [] => [[]]
    | h :: t => if c = target then [] :: h :: t else (c :: h) :: t

/-- Rust `str::contains(pat)` on character lists. -/
def containsSeq (pat : List Char) : List Char → Bool
  | [] => decide (pat = [])
  | c :: rest => pat.isPrefixOf (c :: rest) || containsSeq pat rest

/-- Decimal digit character of a value below 10. -/
def digitChar (n : Nat) : Char := Char.ofNat (48 + n)

/-- Numeric value of a decimal digit string (most significant first). -/
def digitsVal (l : List Char) : Nat :=
  l.foldl (fun acc c => 10 * acc + (c.toNat - 48)) 0

/-- Decimal rendering of a natural number, fuel-based so that it reduces in
the kernel; `natToDigits` supplies sufficient fuel. -/
def natToDigitsAux : Nat → Nat → List Char
  | 0, _ => []
  | fuel + 1, n =>
    if n < 10 then [digitChar n]
    else natToDigitsAux fuel (n / 10) ++ [digitChar (n % 10)]

/-- Decimal rendering of a natural number, as Rust `format!` of a `u64`. -/
def natToDigits (n : Nat) : List Char := natToDigitsAux (n + 1) n

/-- Digits-only body of `u64::from_str`: nonempty, all ASCII digits, value
within the `u64` range. -/
def parseU64Core (l : List Char) : Option Nat :=
  if l ≠ [] ∧ l.all Char.isDigit then
    if digitsVal l < 2 ^ 64 then some (digitsVal l) else none
  else none

/-- Rust `str::parse::<u64>`: an optional leading `+` sign followed by
decimal digits. -/
def parseU64 (l : List Char) : Option Nat :=
  match l with
  | [] => parseU64Core []
  | c :: rest => if c = '+' then parseU64Core rest else parseU64Core (c :: rest)

/-- Unsigned body of the decimal-literal model of `str::parse::<f64>`. -/
def parseDecimalCore (l : List Char) : Option ℚ :=
  match splitAtFirst '.' l with
  | none =>
    if l ≠ [] ∧ l.all Char.isDigit then some ((digitsVal l : ℚ)) else none
  | some (ip, fp) =>
    if (ip ≠ [] ∨ fp ≠ []) ∧ ip.all Char.isDigit ∧ fp.all Char.isDigit then
      some ((digitsVal ip : ℚ) + (digitsVal fp : ℚ) / (10 : ℚ) ^ fp.length)
    else none

/-- Model of Rust `str::parse::<f64>` on plain decimal literals (optional
sign, digits, optional fractional part), with values as exact rationals;
all other inputs are malformed.  The balance quantities exchanged with the
chain are in this fragment. -/
def parseDecimal (l : List Char) : Option ℚ :=
  match l with
  | [] => none
  | c :: rest =>
    if c = '-' then (parseDecimalCore rest).map (fun q => -q)
    else if c = '+' then parseDecimalCore rest
    else parseDecimalCore (c :: rest)

/-! ### C2: balance response processing (main.rs lines 646-665) -/

/-- `TokenHold` (main.rs lines 250-252). -/
structure TokenHold where
  quantity : List Char
deriving DecidableEq

/-- `TokenBalance` (main.rs lines 237-247); `type_name` and `inst` stand
for the Rust fields `r#type` and `instance`. -/
structure TokenBalance where
  collection : List Char
  category : List Char
  type_name : List Char
  additionalKey : List Char
  inst : List Char
  quantity : List Char
  lockedHolds : List TokenHold
deriving DecidableEq

/-- Sum of the locked-hold quantities of a balance record
(main.rs lines 653-656): each hold's quantity is parsed and a malformed
hold quantity is coerced to `0.0` by `unwrap_or(0.0)`. -/
def lockedSum (holds : List TokenHold) : ℚ :=
  (holds.map (fun hold => (parseDecimal hold.quantity).getD 0)).sum

/-- The record-processing step of `get_gala_balance_async`
(main.rs lines 649-664): first record if any, total from its quantity
(malformed total is a `Parse` error), locked from `lockedSum`, and
`(total - locked, locked)`; no record yields `(0.0, 0.0)`. -/
def processBalanceResponse (data : List TokenBalance) :
    Except GalaChainError (ℚ × ℚ) :=
  match data.head? with
  | some balance =>
    match parseDecimal balance.quantity with
    | none => .error (.Parse "Invalid balance quantity")
    | some total =>
      let locked := lockedSum balance.lockedHolds
      .ok (total - locked, locked)
  | none => .ok (0, 0)

/-! ### C3: registration check decision (main.rs lines 458-529) -/

/-- Outcome of one HTTP send: either a transport-level failure (with the
reqwest `is_timeout` / `is_connect` classification) or a response with a
status code and a body. -/
inductive HttpOutcome where
  | transportError (is_timeout is_connect : Bool) (msg : String)
  | response (status : Nat) (body : String)

/-- `StatusCode::is_success`: 200..=299. -/
def is2xx (status : Nat) : Bool := 200 ≤ status && status < 300

/-- Network-error message selection of `check_registration_async`
(main.rs lines 477-485). -/
def checkNetworkMessage (is_timeout is_connect : Bool) (msg : String) : String :=
  if is_timeout then "Request timeout"
  else if is_connect then "Connection failed: " ++ msg
  else msg

/-- `PublicKeyData` (main.rs lines 291-295). -/
structure PublicKeyData where
  publicKey : String
  signing : String
deriving DecidableEq

/-- `GetPublicKeyResponse` (main.rs lines 283-288). -/
structure GetPublicKeyResponse where
  status : Int
  data : Option PublicKeyData
deriving DecidableEq

/-- One attempt of `check_registration_async` (main.rs lines 470-527),
after the HTTP exchange produced `outcome`; `decode` is the serde decoding
of the response body into a `GetPublicKeyResponse`. -/
def check_registration_attempt (decode : String → Option GetPublicKeyResponse) :
    HttpOutcome → Except GalaChainError Bool
  | .transportError t c m => .error (.Network (checkNetworkMessage t c m))
  | .response status body =>
    if is2xx status then
      match decode body with
      | none => .error (.Parse "Failed to parse GetPublicKey response")
      | some resp =>
        if resp.status = 1 && resp.data.isSome then .ok true else .ok false
    else if status = 404 then .ok false
    else if containsSeq "not found".data body.data
         || containsSeq "does not exist".data body.data
         || status = 400 then .ok false
    else .error (.Api ("Registration check failed with status " ++
                       toString status ++ ": " ++ body))

/-! ### C7: EIP-55 checksumming (main.rs lines 682-707) -/

/-- The ASCII uppercase-to-lowercase table behind `str::to_lowercase`
(restricted to ASCII, the only characters an address can contain). -/
def lowerPairs : List (Char × Char) :=
  "ABCDEFGHIJKLMNOPQRSTUVWXYZ".data.zip "abcdefghijklmnopqrstuvwxyz".data

/-- `char` lowercasing as used by `to_lowercase` (ASCII table). -/
def toLowerChar (c : Char) : Char :=
  ((lowerPairs.find? (fun p => p.1 == c)).map Prod.snd).getD c

/-- `char::to_ascii_uppercase` (ASCII table, inverse direction). -/
def toUpperChar (c : Char) : Char :=
  ((lowerPairs.find? (fun p => p.2 == c)).map Prod.fst).getD c

/-- The characters satisfying `c.is_ascii_hexdigit() && c.is_alphabetic()`
(the hex letters, both cases). -/
def hexAlphaChars : List Char := "abcdefABCDEF".data

/-- The branch guard of the checksum loop (main.rs line 692). -/
def isHexAlpha (c : Char) : Bool := hexAlphaChars.contains c

/-- The uppercase hex letters. -/
def isUpperHexLetter (c : Char) : Bool := "ABCDEF".data.contains c

/-- The characters `hex::encode` can emit. -/
def lowerHexChars : List Char := "0123456789abcdef".data

/-- Value of a lowercase hex digit character. -/
def hexDigitValue (c : Char) : Nat :=
  if c.isDigit then c.toNat - 48 else c.toNat - 87

/-- Body of the checksum loop (main.rs lines 691-705) for the character at
index `i`: hex letters are uppercased when the hash character at the same
index is at least `'8'` (and left alone when the hash is too short);
all other characters pass through. -/
def checksumStep (hash : List Char) (i : Nat) (c : Char) : Char :=
  if isHexAlpha c then
    match hash.get? i with
    | some hash_char => if '8' ≤ hash_char then toUpperChar c else c
    | none => c
  else c

/-- The enumerate-loop of `to_checksum_address`, carrying the running
index. -/
def checksumGo (hash : List Char) (i : Nat) : List Char → List Char
  | [] => []
  | c :: rest => checksumStep hash i c :: checksumGo hash (i + 1) rest

/-- `GalaChainClient::to_checksum_address` (main.rs lines 682-707):
lowercase the address, Keccak-256-hash the lowercased text (`keccakHex`
returns the digest already hex-encoded, as the Rust code computes it), and
selectively uppercase hex letters. -/
def to_checksum_address (keccakHex : List Char → List Char)
    (address : List Char) : List Char :=
  let lowered := address.map toLowerChar
  checksumGo (keccakHex lowered) 0 lowered

/-! ### C6: stored-credential serialization (main.rs lines 61-118) -/

/-- `SecureWalletData` (main.rs lines 61-65); `created_at` is a `u64`. -/
structure SecureWalletData where
  mnemonic : List Char
  created_at : Nat
deriving DecidableEq

/-- `self.mnemonic.replace('"', "\\\"")` (main.rs line 72). -/
def escapeQuotes : List Char → List Char
  | [] => []
  | c :: rest =>
    if c = '"' then '\\' :: '"' :: escapeQuotes rest else c :: escapeQuotes rest

/-- `value.replace("\\\"", "\"")` (main.rs line 98): left-to-right,
non-overlapping replacement of backslash-quote by quote. -/
def unescapeQuotes : List Char → List Char
  | [] => []
  | [c] => [c]
  | c1 :: c2 :: rest =>
    if c1 = '\\' ∧ c2 = '"' then '"' :: unescapeQuotes rest
    else c1 :: unescapeQuotes (c2 :: rest)

/-- `SecureWalletData::to_json` (main.rs lines 68-76): the literal
`{"mnemonic":"<escaped>","created_at":<n>}` layout of the `format!` call
(braces written `\x7b`/`\x7d`). -/
def to_json (w : SecureWalletData) : List Char :=
  "\x7b\"mnemonic\":\"".data ++ escapeQuotes w.mnemonic ++
    "\",\"created_at\":".data ++ natToDigits w.created_at ++ "\x7d".data

/-- The key a `from_json` loop iteration extracts from one comma-separated
fragment: the part before the first colon, trimmed, with quotes stripped
(main.rs lines 92-93); `none` when the fragment has no colon. -/
def extractedKey (part : List Char) : Option (List Char) :=
  (splitAtFirst ':' (trimChars part)).map (fun kv => trimQuotes (trimChars kv.1))

/-- One iteration of the `from_json` field loop (main.rs lines 90-108) on
the running `(mnemonic, created_at)` state. -/
def processPart (st : List Char × Nat) (part : List Char) :
    Except KeychainError (List Char × Nat) :=
  let part2 := trimChars part
  match splitAtFirst ':' part2 with
  | none => .ok st
  | some (rawKey, rawValue) =>
    let key := trimQuotes (trimChars rawKey)
    let value := trimChars rawValue
    if key = "mnemonic".data then
      .ok (unescapeQuotes (trimQuotes value), st.2)
    else if key = "created_at".data then
      match parseU64 value with
      | some n => .ok (st.1, n)
      | none => .error (.Deserialize "Invalid timestamp")
    else .ok st

/-- `SecureWalletData::from_json` (main.rs lines 78-118): trim, check the
braces, split the interior on commas, fold the field loop from the empty
state, and reject an empty mnemonic. -/
def from_json (json : List Char) : Except KeychainError SecureWalletData :=
  let t := trimChars json
  if t.head? = some '\x7b' ∧ t.getLast? = some '\x7d' then
    let content := (t.drop 1).dropLast
    match (splitOnChar ',' content).foldlM processPart ([], 0) with
    | .error e => .error e
    | .ok (m, ca) =>
      if m = [] then .error (.Deserialize "Missing mnemonic")
      else .ok ⟨m, ca⟩
  else .error (.Deserialize "Invalid JSON format")

/-- The lowercase ASCII letters, as a membership test. -/
def isLowerAlpha (c : Char) : Bool :=
  lowerPairs.any (fun p => p.2 == c)

/-- Shape of a valid recovery phrase as stored: nonempty, only lowercase
letters and spaces, and a letter at both ends.  Every valid 12-word BIP-39
phrase (twelve lowercase dictionary words separated by single spaces) has
this shape. -/
def validMnemonicShape (m : List Char) : Bool :=
  !m.isEmpty &&
  m.all (fun c => isLowerAlpha c || c = ' ') &&
  isLowerAlpha (m.headD ' ') &&
  isLowerAlpha (m.getLastD ' ')

/-! ### C8/C9/C10: in-flight slots, polling and reconciliation
(main.rs lines 1893-1948, 1964-1967, 2104-2128, 2145-2211, 2491-2569)

Task handles are modelled as numeric identifiers; a poll is parametrized by
a `completion` map describing, for each handle, whether the background task
has finished and with what result. -/

/-- `BalanceState` (main.rs lines 1893-1899); `SystemTime` is modelled as a
numeric timestamp. -/
structure BalanceState where
  loading : Bool
  available : ℚ
  locked : ℚ
  error : Option String
  last_updated : Option Nat
deriving DecidableEq

/-- `BalanceState::default` (main.rs lines 1901-1910). -/
def initialBalanceState : BalanceState :=
  { loading := false, available := 0, locked := 0, error := none, last_updated := none }

/-- `RegistrationState` (main.rs lines 1914-1920). -/
structure RegistrationState where
  checking : Bool
  registering : Bool
  is_registered : Option Bool
  error : Option String
  last_checked : Option Nat
deriving DecidableEq

/-- `AsyncTasks` (main.rs lines 1935-1939): the three single-occupancy
in-flight slots. -/
structure AsyncTasks where
  balance_task : Option Nat
  registration_check_task : Option Nat
  registration_task : Option Nat
deriving DecidableEq

/-- `AsyncTasks::default` (main.rs lines 1941-1948). -/
def initialAsyncTasks : AsyncTasks :=
  { balance_task := none, registration_check_task := none, registration_task := none }

/-- The entering-the-Balance-view reset of wallet_balance_ui_system
(main.rs lines 1964-1967): clears `loading` and `error` without touching
the task slots. -/
def enterBalanceView (b : BalanceState) : BalanceState :=
  { b with loading := false, error := none }

/-- The refresh-button press handler of wallet_balance_ui_system
(main.rs lines 2104-2128): guarded by `!balance_state.loading` and the
presence of a wallet address; on submission it sets `loading`, clears the
error and stores the freshly spawned task handle in the slot. -/
def pressRefreshBalance (has_address : Bool) (new_task : Nat)
    (b : BalanceState) (t : AsyncTasks) : BalanceState × AsyncTasks :=
  if b.loading = false then
    if has_address then
      ({ b with loading := true, error := none },
       { t with balance_task := some new_task })
    else (b, t)
  else (b, t)

/-- The balance branch of async_task_polling_system
(main.rs lines 2506-2525): a non-blocking poll of the occupied slot; on
completion the slot is cleared, `loading` dropped, and either the numbers
or the error message written. -/
def pollBalanceTask (completion : Nat → Option (Except GalaChainError (ℚ × ℚ)))
    (now : Nat) (b : BalanceState) (t : AsyncTasks) : BalanceState × AsyncTasks :=
  match t.balance_task with
  | none => (b, t)
  | some id =>
    match completion id with
    | none => (b, t)
    | some result =>
      let t2 := { t with balance_task := none }
      match result with
      | .ok q =>
        ({ b with loading := false, available := q.1, locked := q.2,
                  last_updated := some now, error := none }, t2)
      | .error e =>
        ({ b with loading := false, error := some (galaErrorMessage e) }, t2)

/-- The `Local` task slots of wallet_registration_system
(main.rs lines 2148-2150). -/
structure RegSystemLocals where
  registration_task : Option Nat
  registration_check_task : Option Nat
  last_address : Option String
deriving DecidableEq

/-- The check-completion handler of wallet_registration_system
(main.rs lines 2169-2195): the observed check task is cleared, and a
`NotRegistered` verdict with a private key available spawns the
auto-registration task into the registration slot; every other outcome
only logs. -/
def handleRegCheckCompletion (has_private_key : Bool) (new_task : Nat)
    (result : Except GalaChainError Bool) (loc : RegSystemLocals) :
    RegSystemLocals :=
  let loc2 := { loc with registration_check_task := none }
  match result with
  | .ok is_registered =>
    if !is_registered && has_private_key then
      { loc2 with registration_task := some new_task }
    else loc2
  | .error _ => loc2

/-- The registration branch of async_task_polling_system
(main.rs lines 2551-2569): on completion the slot is cleared,
`registering` dropped, and success marks the identity registered while a
failure records the rendered error message. -/
def pollRegistrationTask (completion : Nat → Option (Except GalaChainError Unit))
    (now : Nat) (r : RegistrationState) (t : AsyncTasks) :
    RegistrationState × AsyncTasks :=
  match t.registration_task with
  | none => (r, t)
  | some id =>
    match completion id with
    | none => (r, t)
    | some result =>
      let t2 := { t with registration_task := none }
      match result with
      | .ok _ =>
        ({ r with registering := false, is_registered := some true,
                  last_checked := some now, error := none }, t2)
      | .error e =>
        ({ r with registering := false, error := some (galaErrorMessage e) }, t2)

/-! ## Helper lemmas -/

/-- Every `retryGo` run performs at least one attempt. -/
theorem retryGo_attempts_pos (op : Nat → Except ε α) (attempt fuel : Nat) :
    1 ≤ (retryGo op attempt fuel).attempts := by
  cases fuel with
  | zero =>
    simp only [retryGo]
    cases op attempt <;> simp
  | succ f =>
    simp only [retryGo]
    cases op attempt <;> simp

/-- When every attempt up to the budget fails, `retryGo` performs
`fuel + 1` attempts, returns the outcome of the final attempt, and sleeps
the doubling backoff delays after every attempt but the last. -/
theorem retryGo_all_fail (op : Nat → Except ε α) :
    ∀ fuel attempt, (∀ i, i ≤ attempt + fuel → (op i).isOk = false) →
      retryGo op attempt fuel =
      ⟨op (attempt + fuel), fuel + 1,
       (List.range fuel).map (fun j => 1000 * 2 ^ (attempt + j))⟩ := by
  intro fuel
  induction fuel with
  | zero =>
    intro attempt h
    have hop := h attempt (by omega)
    simp only [retryGo]
    cases hcase : op attempt with
    | ok a => rw [hcase] at hop; simp [Except.isOk, Except.toBool] at hop
    | error e => simp [hcase]
  | succ f ih =>
    intro attempt h
    have hop := h attempt (by omega)
    simp only [retryGo]
    cases hcase : op attempt with
    | ok a => rw [hcase] at hop; simp [Except.isOk, Except.toBool] at hop
    | error e =>
      rw [ih (attempt + 1) (fun i hi => h i (by omega))]
      have h1 : attempt + 1 + f = attempt + (f + 1) := by omega
      rw [h1]
      simp only [RetryTrace.mk.injEq, true_and]
      rw [List.range_succ_eq_map, List.map_cons, List.map_map]
      simp only [List.cons.injEq]
      refine ⟨by simp, ?_⟩
      apply List.map_congr_left
      intro j hj
      simp only [Function.comp_apply]
      have hidx : attempt + 1 + j = attempt + (j + 1) := by omega
      rw [hidx]

/-- When the attempts at offsets `0, …, j-1` fail and the attempt at
offset `j` succeeds within the budget, `retryGo` performs `j + 1` attempts,
returns the success, and sleeps one backoff delay per failed attempt. -/
theorem retryGo_success (op : Nat → Except ε α) (v : α) :
    ∀ j fuel attempt, j ≤ fuel →
      (∀ i, i < j → (op (attempt + i)).isOk = false) →
      op (attempt + j) = .ok v →
      retryGo op attempt fuel =
        ⟨.ok v, j + 1, (List.range j).map (fun i => 1000 * 2 ^ (attempt + i))⟩ := by
  intro j
  induction j with
  | zero =>
    intro fuel attempt hle hfail hok
    rw [Nat.add_zero] at hok
    cases fuel with
    | zero => simp only [retryGo]; rw [hok]; rfl
    | succ f => simp only [retryGo]; rw [hok]; rfl
  | succ jj ih =>
    intro fuel attempt hle hfail hok
    obtain ⟨f, rfl⟩ : ∃ f, fuel = f + 1 := ⟨fuel - 1, by omega⟩
    have h0 := hfail 0 (by omega)
    rw [Nat.add_zero] at h0
    simp only [retryGo]
    cases hcase : op attempt with
    | ok a => rw [hcase] at h0; simp [Except.isOk, Except.toBool] at h0
    | error e =>
      have hfail2 : ∀ i, i < jj → (op (attempt + 1 + i)).isOk = false := by
        intro i hi
        have hstep := hfail (i + 1) (by omega)
        have heq : attempt + (i + 1) = attempt + 1 + i := by omega
        rwa [heq] at hstep
      have hok2 : op (attempt + 1 + jj) = .ok v := by
        have heq : attempt + 1 + jj = attempt + (jj + 1) := by omega
        rw [heq]; exact hok
      rw [ih f (attempt + 1) (by omega) hfail2 hok2]
      simp only [RetryTrace.mk.injEq, true_and]
      rw [List.range_succ_eq_map, List.map_cons, List.map_map]
      simp only [List.cons.injEq]
      refine ⟨by simp, ?_⟩
      apply List.map_congr_left
      intro i hi
      simp only [Function.comp_apply]
      have heq : attempt + 1 + i = attempt + (i + 1) := by omega
      rw [heq]

/-! ## Claim theorems -/

/-- C1: for every recovery phrase accepted by the derivation pipeline
(in particular for every valid 12-word phrase), and for any fixed set of
cryptographic primitives, `generate_wallet_from_mnemonic` is
deterministic: two calls on the same phrase string that return a wallet
return an identical private key and an identical address string. -/
theorem C1_generate_wallet_deterministic (ops : CryptoOps) (phrase : String)
    (key1 key2 : List Nat) (addr1 addr2 : String)
    (h1 : generate_wallet_from_mnemonic ops phrase = .ok (key1, addr1))
    (h2 : generate_wallet_from_mnemonic ops phrase = .ok (key2, addr2)) :
    key1 = key2 ∧ addr1 = addr2 := by
  rw [h1] at h2
  simp only [Except.ok.injEq, Prod.mk.injEq] at h2
  exact h2

/-- Witness for C1: the derivation on a concrete phrase with concrete
primitives succeeds, and the theorem applies to it. -/
theorem C1_generate_wallet_deterministic_witness :
    generate_wallet_from_mnemonic demoCryptoOps "abandon ability able" =
      .ok (List.replicate 32 1, "0x0101010101010101010101010101010101010101") ∧
    List.replicate 32 1 = List.replicate 32 1 ∧
    "0x0101010101010101010101010101010101010101" =
      "0x0101010101010101010101010101010101010101" := by
  refine ⟨by decide, ?_⟩
  exact C1_generate_wallet_deterministic demoCryptoOps "abandon ability able"
    (List.replicate 32 1) (List.replicate 32 1)
    "0x0101010101010101010101010101010101010101"
    "0x0101010101010101010101010101010101010101" (by decide) (by decide)

/-- C4: the retry helper performs `max_retries + 1` attempts when every
attempt fails — 3 attempts for registration checks and 4 for registration
and balance calls — with backoff delays of 1000ms, 2000ms, 4000ms, …
doubling between attempts, and returns the outcome of the last attempt
(the last observed error); when the attempt at index `k` is the first to
succeed, exactly `k + 1` attempts are performed and the success value is
returned. -/
theorem C4_retry_schedule (op : Nat → Except ε α) (max_retries k : Nat) (v : α) :
    (check_registration_max_retries + 1 = 3 ∧
     register_user_max_retries + 1 = 4 ∧
     get_balance_max_retries + 1 = 4) ∧
    ((∀ i, i ≤ max_retries → (op i).isOk = false) →
      (retry_request op max_retries).attempts = max_retries + 1 ∧
      (retry_request op max_retries).result = op max_retries ∧
      (retry_request op max_retries).delays =
        (List.range max_retries).map (fun i => 1000 * 2 ^ i)) ∧
    (k ≤ max_retries → (∀ i, i < k → (op i).isOk = false) → op k = .ok v →
      (retry_request op max_retries).attempts = k + 1 ∧
      (retry_request op max_retries).result = .ok v) := by
  refine ⟨⟨rfl, rfl, rfl⟩, ?_, ?_⟩
  · intro hfail
    have hrun := retryGo_all_fail op max_retries 0 (fun i hi => hfail i (by omega))
    rw [Nat.zero_add] at hrun
    unfold retry_request
    rw [hrun]
    refine ⟨rfl, rfl, ?_⟩
    apply List.map_congr_left
    intro j hj
    rw [Nat.zero_add]
  · intro hk hfail hok
    have hfail2 : ∀ i, i < k → (op (0 + i)).isOk = false := by
      intro i hi; rw [Nat.zero_add]; exact hfail i hi
    have hok2 : op (0 + k) = .ok v := by rw [Nat.zero_add]; exact hok
    have hrun := retryGo_success op v k max_retries 0 hk hfail2 hok2
    unfold retry_request
    rw [hrun]
    exact ⟨rfl, rfl⟩

/-- Witness for C4: under budget 2 an always-failing operation performs 3
attempts, and under budget 3 an operation failing once performs 2 attempts
and returns the success value. -/
theorem C4_retry_schedule_witness :
    (retry_request (fun _ => (.error (GalaChainError.Network "down") : Except GalaChainError Nat))
      check_registration_max_retries).attempts = 3 ∧
    (retry_request (fun i => if i = 0 then .error (GalaChainError.Network "down")
      else (.ok 7 : Except GalaChainError Nat)) 3).attempts = 2 ∧
    (retry_request (fun i => if i = 0 then .error (GalaChainError.Network "down")
      else (.ok 7 : Except GalaChainError Nat)) 3).result = .ok 7 := by
  refine ⟨?_, ?_, ?_⟩
  · exact ((C4_retry_schedule
      (fun _ => (.error (GalaChainError.Network "down") : Except GalaChainError Nat))
      check_registration_max_retries 0 0).2.1 (by decide)).1
  · exact ((C4_retry_schedule
      (fun i => if i = 0 then .error (GalaChainError.Network "down")
        else (.ok 7 : Except GalaChainError Nat)) 3 1 7).2.2
      (by decide) (by decide) (by decide)).1
  · exact ((C4_retry_schedule
      (fun i => if i = 0 then .error (GalaChainError.Network "down")
        else (.ok 7 : Except GalaChainError Nat)) 3 1 7).2.2
      (by decide) (by decide) (by decide)).2

/-- C5 counterexample: an operation failing with a `Parse` error on every
attempt is retried with backoff under the registration-check budget —
three attempts and two backoff delays — rather than surfaced immediately
after a single attempt. -/
theorem C5_counterexample :
    (retry_request (fun _ => (.error (GalaChainError.Parse "malformed") : Except GalaChainError Unit))
      check_registration_max_retries).attempts = 3 ∧
    (retry_request (fun _ => (.error (GalaChainError.Parse "malformed") : Except GalaChainError Unit))
      check_registration_max_retries).delays = [1000, 2000] ∧
    (3 : Nat) ≠ 1 := by decide

/-- C5 amended: `retry_request` does not inspect the error kind: every
failure — `Network`, `Api`, `Parse`, `Auth` or `NotRegistered` alike —
triggers the retry/backoff behaviour while budget remains, and an error is
surfaced only once the budget is exhausted, the last observed error being
returned. -/
theorem C5_retry_is_error_blind (op : Nat → Except GalaChainError α)
    (max_retries : Nat) (e : GalaChainError) :
    (op 0 = .error e → 1 ≤ max_retries → 2 ≤ (retry_request op max_retries).attempts) ∧
    ((∀ i, i ≤ max_retries → (op i).isOk = false) →
      (retry_request op max_retries).result = op max_retries ∧
      (retry_request op max_retries).attempts = max_retries + 1) := by
  constructor
  · intro h0 hpos
    obtain ⟨m, rfl⟩ : ∃ m, max_retries = m + 1 := ⟨max_retries - 1, by omega⟩
    unfold retry_request
    simp only [retryGo]
    rw [h0]
    have hpos2 := retryGo_attempts_pos op 1 m
    show 2 ≤ (retryGo op 1 m).attempts + 1
    omega
  · intro hfail
    have hrun := retryGo_all_fail op max_retries 0 (fun i hi => hfail i (by omega))
    rw [Nat.zero_add] at hrun
    unfold retry_request
    rw [hrun]
    exact ⟨rfl, rfl⟩

/-- Witness for C5: an always-failing `Api` operation under budget 1 is
attempted twice and its error is surfaced at the end. -/
theorem C5_retry_is_error_blind_witness :
    2 ≤ (retry_request (fun _ => (.error (GalaChainError.Api "boom") : Except GalaChainError Nat)) 1).attempts ∧
    (retry_request (fun _ => (.error (GalaChainError.Api "boom") : Except GalaChainError Nat)) 1).result =
      .error (GalaChainError.Api "boom") := by
  constructor
  · exact (C5_retry_is_error_blind
      (fun _ => (.error (GalaChainError.Api "boom") : Except GalaChainError Nat)) 1
      (GalaChainError.Api "boom")).1 (by decide) (by decide)
  · exact ((C5_retry_is_error_blind
      (fun _ => (.error (GalaChainError.Api "boom") : Except GalaChainError Nat)) 1
      (GalaChainError.Api "boom")).2 (by decide)).1

/-- C2 counterexample: a single balance record whose total quantity is
`"100"` but whose locked hold carries the malformed quantity `"abc"`
yields the numeric result `(100, 0)` — the malformed hold is coerced to
zero by `unwrap_or(0.0)` — instead of a `Parse` error. -/
theorem C2_counterexample :
    parseDecimal "abc".data = none ∧
    processBalanceResponse [⟨[], [], [], [], [], "100".data, [⟨"abc".data⟩]⟩] =
      .ok (100, 0) :=
  ⟨by decide, by with_unfolding_all rfl⟩

/-- C2 amended: a response with zero records yields `(0, 0)`; a response
with one record whose total quantity parses to `q` yields
`(q - lockedSum, lockedSum)` where `lockedSum` sums the parsed locked-hold
quantities with each malformed hold quantity contributing `0`; a record
whose total quantity is malformed yields a `Parse` error. -/
theorem C2_get_balance_processing (b : TokenBalance) (q : ℚ)
    (hold : TokenHold) (holds : List TokenHold) :
    processBalanceResponse [] = .ok (0, 0) ∧
    (parseDecimal b.quantity = some q →
      processBalanceResponse [b] =
        .ok (q - lockedSum b.lockedHolds, lockedSum b.lockedHolds)) ∧
    (parseDecimal b.quantity = none →
      processBalanceResponse [b] = .error (.Parse "Invalid balance quantity")) ∧
    (parseDecimal hold.quantity = none →
      lockedSum (hold :: holds) = lockedSum holds) ∧
    (∀ qh, parseDecimal hold.quantity = some qh →
      lockedSum (hold :: holds) = qh + lockedSum holds) := by
  refine ⟨rfl, ?_, ?_, ?_, ?_⟩
  · intro hq
    simp only [processBalanceResponse, List.head?_cons, hq]
  · intro hq
    simp only [processBalanceResponse, List.head?_cons, hq]
  · intro hq
    simp only [lockedSum, List.map_cons, List.sum_cons, hq, Option.getD_none, zero_add]
  · intro qh hq
    simp only [lockedSum, List.map_cons, List.sum_cons, hq, Option.getD_some]

/-- Witness for C2: the concrete scenario of the specification — quantity
`"100"` with a locked hold of `"30"` — and a malformed hold `"xyz"`
contributing zero. -/
theorem C2_get_balance_processing_witness :
    processBalanceResponse [⟨[], [], [], [], [], "100".data, [⟨"30".data⟩]⟩] =
      .ok (100 - lockedSum [⟨"30".data⟩], lockedSum [⟨"30".data⟩]) ∧
    lockedSum [⟨"xyz".data⟩] = lockedSum [] := by
  constructor
  · exact (C2_get_balance_processing ⟨[], [], [], [], [], "100".data, [⟨"30".data⟩]⟩
      100 ⟨"xyz".data⟩ []).2.1 (by with_unfolding_all rfl)
  · exact (C2_get_balance_processing ⟨[], [], [], [], [], "100".data, [⟨"30".data⟩]⟩
      100 ⟨"xyz".data⟩ []).2.2.2.1 (by decide)

/-- C8 counterexample: a reachable interleaving violates the no-op claim —
press refresh (task 1 is spawned and occupies the slot), re-enter the
Balance view (which resets `loading` but leaves the slot occupied, main.rs
line 1966), press refresh again: the still-occupied slot is overwritten
with task 2, so the second submission while task 1 was in flight spawned a
second task instead of being a no-op. -/
theorem C8_counterexample :
    (pressRefreshBalance true 1 initialBalanceState initialAsyncTasks).2.balance_task = some 1 ∧
    (pressRefreshBalance true 2
      (enterBalanceView (pressRefreshBalance true 1 initialBalanceState initialAsyncTasks).1)
      (pressRefreshBalance true 1 initialBalanceState initialAsyncTasks).2).2.balance_task = some 2 ∧
    some 2 ≠ (some 1 : Option Nat) := by
  refine ⟨by with_unfolding_all rfl, by with_unfolding_all rfl, by decide⟩

/-- C8 amended: the duplicate-submission guard is the `loading` flag, not
slot occupancy: while `loading` is set (as it is from a submission until
the completing poll), a second press is a no-op — the occupied slot is
untouched and no task is spawned — and the slot is cleared exactly by the
poll that observes the completion (a poll of a pending or empty slot
changes nothing); but re-entering the Balance view resets `loading`
without clearing the slot, after which a further press replaces the
occupied slot. -/
theorem C8_inflight_submission (b : BalanceState) (t : AsyncTasks)
    (has_address : Bool) (new_task id now : Nat)
    (completion : Nat → Option (Except GalaChainError (ℚ × ℚ))) :
    (b.loading = true → pressRefreshBalance has_address new_task b t = (b, t)) ∧
    (t.balance_task = some id → completion id = none →
      pollBalanceTask completion now b t = (b, t)) ∧
    (t.balance_task = some id → ∀ result, completion id = some result →
      (pollBalanceTask completion now b t).2.balance_task = none ∧
      (pollBalanceTask completion now b t).1.loading = false) ∧
    (t.balance_task = none → pollBalanceTask completion now b t = (b, t)) ∧
    ((enterBalanceView b).loading = false ∧
     (enterBalanceView b) = { b with loading := false, error := none }) := by
  refine ⟨?_, ?_, ?_, ?_, rfl, rfl⟩
  · intro hload
    simp only [pressRefreshBalance, hload]
    simp
  · intro hslot hpend
    simp only [pollBalanceTask, hslot, hpend]
  · intro hslot result hdone
    simp only [pollBalanceTask, hslot, hdone]
    cases result <;> simp
  · intro hslot
    simp only [pollBalanceTask, hslot]

/-- Witness for C8: a loading state with an occupied slot ignores a press;
a pending poll changes nothing; a completing poll clears the slot. -/
theorem C8_inflight_submission_witness :
    pressRefreshBalance true 9 ⟨true, 0, 0, none, none⟩ ⟨some 1, none, none⟩ =
      (⟨true, 0, 0, none, none⟩, ⟨some 1, none, none⟩) ∧
    pollBalanceTask (fun _ => none) 0 ⟨true, 0, 0, none, none⟩ ⟨some 1, none, none⟩ =
      (⟨true, 0, 0, none, none⟩, ⟨some 1, none, none⟩) ∧
    (pollBalanceTask (fun _ => some (.error GalaChainError.NotRegistered)) 0
      ⟨true, 0, 0, none, none⟩ ⟨some 1, none, none⟩).2.balance_task = none := by
  refine ⟨?_, ?_, ?_⟩
  · exact (C8_inflight_submission ⟨true, 0, 0, none, none⟩ ⟨some 1, none, none⟩
      true 9 1 0 (fun _ => none)).1 rfl
  · exact (C8_inflight_submission ⟨true, 0, 0, none, none⟩ ⟨some 1, none, none⟩
      true 9 1 0 (fun _ => none)).2.1 rfl rfl
  · exact ((C8_inflight_submission ⟨true, 0, 0, none, none⟩ ⟨some 1, none, none⟩
      true 9 1 0 (fun _ => some (.error GalaChainError.NotRegistered))).2.2.1 rfl
      (.error GalaChainError.NotRegistered) rfl).1

/-- C9: a completed registration check reporting `NotRegistered` with a
private key available automatically spawns the registration submission
(occupying the registration slot, no user action involved) and clears the
check slot; a registration task completing successfully sets
`is_registered = some true` (and drops `registering`, clearing the slot),
while a failing one records the rendered failure reason. -/
theorem C9_registration_reconciliation (has_private_key : Bool)
    (loc : RegSystemLocals) (new_task id now : Nat)
    (r : RegistrationState) (t : AsyncTasks) (e : GalaChainError)
    (completion : Nat → Option (Except GalaChainError Unit)) :
    (has_private_key = true →
      (handleRegCheckCompletion has_private_key new_task (.ok false) loc).registration_task = some new_task ∧
      (handleRegCheckCompletion has_private_key new_task (.ok false) loc).registration_check_task = none) ∧
    (t.registration_task = some id → completion id = some (.ok ()) →
      (pollRegistrationTask completion now r t).1.is_registered = some true ∧
      (pollRegistrationTask completion now r t).1.registering = false ∧
      (pollRegistrationTask completion now r t).2.registration_task = none) ∧
    (t.registration_task = some id → completion id = some (.error e) →
      (pollRegistrationTask completion now r t).1.error = some (galaErrorMessage e) ∧
      (pollRegistrationTask completion now r t).1.registering = false) := by
  refine ⟨?_, ?_, ?_⟩
  · intro hk
    subst hk
    simp [handleRegCheckCompletion]
  · intro hslot hdone
    simp only [pollRegistrationTask, hslot, hdone]
    simp
  · intro hslot hdone
    simp only [pollRegistrationTask, hslot, hdone]
    simp

/-- Witness for C9: concrete check-completion and registration-completion
instances. -/
theorem C9_registration_reconciliation_witness :
    (handleRegCheckCompletion true 5 (.ok false) ⟨none, some 4, none⟩).registration_task = some 5 ∧
    (pollRegistrationTask (fun _ => some (.ok ())) 7
      ⟨false, true, none, none, none⟩ ⟨none, none, some 6⟩).1.is_registered = some true ∧
    (pollRegistrationTask (fun _ => some (.error (GalaChainError.Api "denied"))) 7
      ⟨false, true, none, none, none⟩ ⟨none, none, some 6⟩).1.error =
      some (galaErrorMessage (GalaChainError.Api "denied")) := by
  refine ⟨?_, ?_, ?_⟩
  · exact ((C9_registration_reconciliation true ⟨none, some 4, none⟩ 5 6 7
      ⟨false, true, none, none, none⟩ ⟨none, none, some 6⟩ (GalaChainError.Api "denied")
      (fun _ => some (.ok ()))).1 rfl).1
  · exact ((C9_registration_reconciliation true ⟨none, some 4, none⟩ 5 6 7
      ⟨false, true, none, none, none⟩ ⟨none, none, some 6⟩ (GalaChainError.Api "denied")
      (fun _ => some (.ok ()))).2.1 rfl rfl).1
  · exact ((C9_registration_reconciliation true ⟨none, some 4, none⟩ 5 6 7
      ⟨false, true, none, none, none⟩ ⟨none, none, some 6⟩ (GalaChainError.Api "denied")
      (fun _ => some (.error (GalaChainError.Api "denied")))).2.2 rfl rfl).1

/-- C10: when the polled balance task completes with an error, only the
error message and the loading flag are written: the previously displayed
`available`, `locked` and `last_updated` values are unchanged, the error
field holds the rendered message, `loading` is dropped, and the slot is
cleared. -/
theorem C10_balance_error_frame (b : BalanceState) (t : AsyncTasks)
    (id now : Nat) (e : GalaChainError)
    (completion : Nat → Option (Except GalaChainError (ℚ × ℚ)))
    (hslot : t.balance_task = some id)
    (hdone : completion id = some (.error e)) :
    (pollBalanceTask completion now b t).1.available = b.available ∧
    (pollBalanceTask completion now b t).1.locked = b.locked ∧
    (pollBalanceTask completion now b t).1.last_updated = b.last_updated ∧
    (pollBalanceTask completion now b t).1.error = some (galaErrorMessage e) ∧
    (pollBalanceTask completion now b t).1.loading = false ∧
    (pollBalanceTask completion now b t).2.balance_task = none := by
  simp only [pollBalanceTask, hslot, hdone]
  simp

/-- Witness for C10: a concrete erroring completion leaves the numeric
fields of a concrete balance state unchanged. -/
theorem C10_balance_error_frame_witness :
    (pollBalanceTask (fun _ => some (.error (GalaChainError.Network "down"))) 9
      ⟨true, 5, 2, none, some 3⟩ ⟨some 1, none, none⟩).1.available =
      (⟨true, 5, 2, none, some 3⟩ : BalanceState).available ∧
    (pollBalanceTask (fun _ => some (.error (GalaChainError.Network "down"))) 9
      ⟨true, 5, 2, none, some 3⟩ ⟨some 1, none, none⟩).1.last_updated = some 3 := by
  constructor
  · exact (C10_balance_error_frame ⟨true, 5, 2, none, some 3⟩ ⟨some 1, none, none⟩ 1 9
      (GalaChainError.Network "down") (fun _ => some (.error (GalaChainError.Network "down")))
      rfl rfl).1
  · exact (C10_balance_error_frame ⟨true, 5, 2, none, some 3⟩ ⟨some 1, none, none⟩ 1 9
      (GalaChainError.Network "down") (fun _ => some (.error (GalaChainError.Network "down")))
      rfl rfl).2.2.1

/-- C3: classification of a registration-check attempt.  The attempt
returns `true` exactly when the HTTP status is 2xx and the decoded
response has status 1 with a data payload present; it returns `false`
(not an error) exactly on a decodable 2xx response without that success
shape, or on a non-2xx response that is a 404, a 400, or whose body
contains `not found` / `does not exist` phrasing; an `Api` error arises
exactly on the remaining non-2xx responses; and a transport-level failure
yields a `Network` error. -/
theorem C3_check_registration_classification
    (decode : String → Option GetPublicKeyResponse) (status : Nat) (body : String)
    (is_timeout is_connect : Bool) (msg : String) :
    (check_registration_attempt decode (.response status body) = .ok true ↔
      is2xx status = true ∧ ∃ resp, decode body = some resp ∧
        resp.status = 1 ∧ resp.data.isSome = true) ∧
    (check_registration_attempt decode (.response status body) = .ok false ↔
      ((is2xx status = true ∧ ∃ resp, decode body = some resp ∧
          ¬(resp.status = 1 ∧ resp.data.isSome = true)) ∨
       (is2xx status = false ∧ (status = 404 ∨
          containsSeq "not found".data body.data = true ∨
          containsSeq "does not exist".data body.data = true ∨ status = 400)))) ∧
    ((∃ m, check_registration_attempt decode (.response status body) = .error (.Api m)) ↔
      (is2xx status = false ∧ status ≠ 404 ∧
       containsSeq "not found".data body.data = false ∧
       containsSeq "does not exist".data body.data = false ∧ status ≠ 400)) ∧
    (∃ m, check_registration_attempt decode (.transportError is_timeout is_connect msg) =
      .error (.Network m)) := by
  by_cases h2 : is2xx status = true
  · cases hdec : decode body with
    | none => simp [check_registration_attempt, h2, hdec]
    | some resp =>
      by_cases hok : resp.status = 1 ∧ resp.data.isSome = true
      · have hne : ¬resp.data = none := by
          intro hn
          rw [hn] at hok
          exact absurd hok.2 (by simp [Option.isSome])
        simp [check_registration_attempt, h2, hdec, hok.1, hok.2, hne]
      · have hdata : resp.status = 1 → resp.data = none := by
          intro h1
          by_contra hne
          exact hok ⟨h1, Option.isSome_iff_ne_none.mpr hne⟩
        simp [check_registration_attempt, h2, hdec, hok]
        exact hdata
  · by_cases h404 : status = 404
    · simp [check_registration_attempt, h2, h404, (by decide : is2xx 404 = false)]
    · by_cases hnf : containsSeq "not found".data body.data = true
      · simp [check_registration_attempt, h2, h404, hnf]
      · by_cases hde : containsSeq "does not exist".data body.data = true
        · simp [check_registration_attempt, h2, h404, hnf, hde]
        · by_cases h400 : status = 400
          · simp [check_registration_attempt, h2, h404, hnf, hde, h400,
              (by decide : is2xx 400 = false)]
          · simp [check_registration_attempt, h2, h404, hnf, hde, h400]

/-- Lowercasing is idempotent. -/
theorem toLowerChar_idem (c : Char) : toLowerChar (toLowerChar c) = toLowerChar c := by
  cases hfind : lowerPairs.find? (fun p => p.1 == c) with
  | none =>
    have h1 : toLowerChar c = c := by unfold toLowerChar; rw [hfind]; rfl
    rw [h1, h1]
  | some p =>
    have h1 : toLowerChar c = p.2 := by unfold toLowerChar; rw [hfind]; rfl
    have hmem : p ∈ lowerPairs := List.mem_of_find?_eq_some hfind
    rw [h1]
    fin_cases hmem <;> decide

/-- A hex letter fixed by lowercasing is one of the six lowercase hex
letters. -/
theorem isHexAlpha_lower_cases (c : Char) (hhex : isHexAlpha c = true)
    (hlow : toLowerChar c = c) : c ∈ "abcdef".data := by
  have hmem : c ∈ hexAlphaChars := by
    simpa [isHexAlpha] using hhex
  fin_cases hmem <;> first | decide | (exfalso; revert hlow; decide)

/-- Behaviour of uppercasing on the six lowercase hex letters. -/
theorem toUpperChar_hex_props (c : Char)
    (h : c ∈ "abcdef".data) :
    toLowerChar (toUpperChar c) = c ∧ isUpperHexLetter (toUpperChar c) = true ∧
    isUpperHexLetter c = false := by
  fin_cases h <;> decide

/-- The checksum loop only changes letter case: lowercasing its output
recovers its (already lowercased) input. -/
theorem checksumGo_toLower (hash : List Char) :
    ∀ l i, (∀ c, c ∈ l → toLowerChar c = c) →
      (checksumGo hash i l).map toLowerChar = l := by
  intro l
  induction l with
  | nil => intro i hfix; rfl
  | cons c rest ih =>
    intro i hfix
    have hc := hfix c (by simp)
    simp only [checksumGo, List.map_cons]
    rw [ih (i + 1) (fun d hd => hfix d (by simp [hd]))]
    unfold checksumStep
    by_cases hhex : isHexAlpha c = true
    · cases hget : hash.get? i with
      | none => simp [hhex, hget, hc]
      | some hash_char =>
        by_cases hcmp : '8' ≤ hash_char
        · have := (toUpperChar_hex_props c (isHexAlpha_lower_cases c hhex hc)).1
          simp [hhex, hget, hcmp, this]
        · simp [hhex, hget, hcmp, hc]
    · simp [hhex, hc]

/-- Index-wise description of the checksum loop. -/
theorem checksumGo_get? (hash : List Char) :
    ∀ l i j, (checksumGo hash i l).get? j =
      (l.get? j).map (checksumStep hash (i + j)) := by
  intro l
  induction l with
  | nil => intro i j; simp [checksumGo]
  | cons c rest ih =>
    intro i j
    cases j with
    | zero => simp [checksumGo]
    | succ jj =>
      simp only [checksumGo, List.get?_cons_succ]
      rw [ih (i + 1) jj]
      have heq : i + 1 + jj = i + (jj + 1) := by omega
      rw [heq]

/-- Every element of a lowercased list is fixed by lowercasing. -/
theorem mem_map_toLowerChar_fixed (address : List Char) (c : Char)
    (h : c ∈ address.map toLowerChar) : toLowerChar c = c := by
  obtain ⟨d, _, rfl⟩ := List.mem_map.mp h
  exact toLowerChar_idem d

/-- C7: EIP-55 checksumming (for any hash primitive, the Keccak-256 of the
source included) is idempotent; lowercasing a checksummed address and
re-checksumming reproduces the same checksummed result; and at every
position where the lowercased address holds a hex letter, the output holds
an uppercase hex letter exactly when the hash hex digit at that position
has value at least 8 (positions holding digits or other characters are
passed through unchanged and never carry case). -/
theorem C7_checksum_address (keccakHex : List Char → List Char)
    (address : List Char) (i : Nat) (c hash_char : Char) :
    to_checksum_address keccakHex (to_checksum_address keccakHex address) =
      to_checksum_address keccakHex address ∧
    to_checksum_address keccakHex
        ((to_checksum_address keccakHex address).map toLowerChar) =
      to_checksum_address keccakHex address ∧
    ((address.map toLowerChar).get? i = some c → isHexAlpha c = true →
      (keccakHex (address.map toLowerChar)).get? i = some hash_char →
      hash_char ∈ lowerHexChars →
      ((∃ r, (to_checksum_address keccakHex address).get? i = some r ∧
        isUpperHexLetter r = true) ↔ 8 ≤ hexDigitValue hash_char)) := by
  have hfix : ∀ c2, c2 ∈ address.map toLowerChar → toLowerChar c2 = c2 :=
    mem_map_toLowerChar_fixed address
  have hlowfix : (address.map toLowerChar).map toLowerChar = address.map toLowerChar := by
    rw [List.map_map]
    apply List.map_congr_left
    intro d _
    exact toLowerChar_idem d
  have hout : (to_checksum_address keccakHex address).map toLowerChar =
      address.map toLowerChar := by
    simp only [to_checksum_address]
    exact checksumGo_toLower (keccakHex (address.map toLowerChar))
      (address.map toLowerChar) 0 hfix
  refine ⟨?_, ?_, ?_⟩
  · conv_lhs => rw [to_checksum_address, hout]
    rfl
  · rw [hout]
    conv_lhs => rw [to_checksum_address, hlowfix]
    rfl
  · intro hgetc hhex hgeth hlhex
    have hcfix : toLowerChar c = c :=
      hfix c (List.get?_mem hgetc)
    have hc6 := isHexAlpha_lower_cases c hhex hcfix
    have hprops := toUpperChar_hex_props c hc6
    have hget2 : (to_checksum_address keccakHex address).get? i =
        some (checksumStep (keccakHex (address.map toLowerChar)) i c) := by
      simp only [to_checksum_address]
      rw [checksumGo_get? (keccakHex (address.map toLowerChar))
        (address.map toLowerChar) 0 i]
      rw [Nat.zero_add, hgetc]
      rfl
    rw [hget2]
    unfold checksumStep
    rw [hhex]
    simp only [if_true, hgeth]
    by_cases hcmp : '8' ≤ hash_char
    · have hval : 8 ≤ hexDigitValue hash_char := by
        revert hcmp
        fin_cases hlhex <;> decide
      simp [hcmp, hval, hprops.2.1]
    · have hval : ¬8 ≤ hexDigitValue hash_char := by
        revert hcmp
        fin_cases hlhex <;> decide
      simp [hcmp, hval, hprops.2.2]

/-- Witness for C7: a two-character address with a concrete hash function
exercises the casing-rule conjunct. -/
theorem C7_checksum_address_witness :
    ("ab".data.map toLowerChar).get? 0 = some 'a' ∧
    isHexAlpha 'a' = true ∧
    ((fun _ => "92".data) ("ab".data.map toLowerChar)).get? 0 = some '9' ∧
    '9' ∈ lowerHexChars ∧
    ((∃ r, (to_checksum_address (fun _ => "92".data) "ab".data).get? 0 = some r ∧
      isUpperHexLetter r = true) ↔ 8 ≤ hexDigitValue '9') := by
  refine ⟨by decide, by decide, by decide, by decide, ?_⟩
  exact (C7_checksum_address (fun _ => "92".data) "ab".data 0 'a' '9').2.2
    (by decide) (by decide) (by decide) (by decide)

/-- Dropping while the predicate fails at the head changes nothing. -/
theorem dropWhile_eq_self_of_head (p : Char → Bool) (l : List Char) (c : Char)
    (hh : l.head? = some c) (hp : p c = false) : l.dropWhile p = l := by
  obtain ⟨t, rfl⟩ := List.head?_eq_some_iff.mp hh
  rw [List.dropWhile_cons, hp]
  simp

/-- `trimChars` leaves a list with non-whitespace ends unchanged. -/
theorem trimChars_eq_self (l : List Char) (c d : Char)
    (hh : l.head? = some c) (hc : isWs c = false)
    (hl : l.getLast? = some d) (hd : isWs d = false) : trimChars l = l := by
  unfold trimChars
  rw [dropWhile_eq_self_of_head isWs l c hh hc]
  rw [dropWhile_eq_self_of_head isWs l.reverse d (by rw [List.head?_reverse]; exact hl) hd]
  exact List.reverse_reverse l

/-- `trimQuotes` strips exactly the wrapping quotes of a quoted value whose
body does not start or end with a quote character. -/
theorem trimQuotes_wrap (m : List Char) (h1 h2 : Char)
    (hh : m.head? = some h1) (hq1 : h1 ≠ '"')
    (hl : m.getLast? = some h2) (hq2 : h2 ≠ '"') :
    trimQuotes (('"' :: m) ++ ['"']) = m := by
  obtain ⟨t, rfl⟩ := List.head?_eq_some_iff.mp hh
  unfold trimQuotes
  rw [List.cons_append, List.dropWhile_cons, if_pos (by simp)]
  rw [List.cons_append, List.dropWhile_cons, if_neg (by simp [hq1])]
  have e2 : (h1 :: (t ++ ['"'])).reverse = '"' :: (h1 :: t).reverse := by
    rw [← List.cons_append, List.reverse_append]
    rfl
  rw [e2, List.dropWhile_cons, if_pos (by simp)]
  rw [dropWhile_eq_self_of_head (fun c => c = '"') (h1 :: t).reverse h2
    (by rw [List.head?_reverse]; exact hl) (by simp [hq2])]
  exact List.reverse_reverse (h1 :: t)

/-- `splitAtFirst` splits at the first occurrence of the target. -/
theorem splitAtFirst_append (t : Char) (l1 l2 : List Char)
    (h : ∀ c ∈ l1, c ≠ t) :
    splitAtFirst t (l1 ++ t :: l2) = some (l1, l2) := by
  induction l1 with
  | nil => simp [splitAtFirst]
  | cons c rest ih =>
    have hc : c ≠ t := h c (by simp)
    rw [List.cons_append]
    unfold splitAtFirst
    rw [if_neg hc, ih (fun d hd => h d (by simp [hd]))]

/-- `splitOnChar` always produces at least one fragment. -/
theorem splitOnChar_ne_nil (t : Char) (l : List Char) : splitOnChar t l ≠ [] := by
  cases l with
  | nil => simp [splitOnChar]
  | cons c rest =>
    unfold splitOnChar
    cases splitOnChar t rest with
    | nil => simp
    | cons h t2 =>
      by_cases hc : c = t
      · simp [hc]
      · simp [hc]

/-- A fragment without the target character is returned whole. -/
theorem splitOnChar_no_target (t : Char) (l : List Char)
    (h : ∀ c ∈ l, c ≠ t) : splitOnChar t l = [l] := by
  induction l with
  | nil => rfl
  | cons c rest ih =>
    have hc : c ≠ t := h c (by simp)
    unfold splitOnChar
    rw [ih (fun d hd => h d (by simp [hd]))]
    simp [hc]

/-- Splitting a list around its first target occurrence. -/
theorem splitOnChar_append (t : Char) (l1 l2 : List Char)
    (h : ∀ c ∈ l1, c ≠ t) :
    splitOnChar t (l1 ++ t :: l2) = l1 :: splitOnChar t l2 := by
  induction l1 with
  | nil =>
    rw [List.nil_append]
    cases hs : splitOnChar t l2 with
    | nil => exact absurd hs (splitOnChar_ne_nil t l2)
    | cons a b =>
      rw [splitOnChar, hs]
      simp
  | cons c rest ih =>
    have hc : c ≠ t := h c (by simp)
    rw [List.cons_append]
    rw [splitOnChar, ih (fun d hd => h d (by simp [hd]))]
    simp [hc]

/-- Appending a digit multiplies the accumulated value by ten. -/
theorem digitsVal_append (l : List Char) (c : Char) :
    digitsVal (l ++ [c]) = 10 * digitsVal l + (c.toNat - 48) := by
  unfold digitsVal
  rw [List.foldl_append]
  rfl

/-- The rendering loop is correct below its fuel: value round trip,
non-emptiness, and digits-only output. -/
theorem natToDigitsAux_spec :
    ∀ fuel n, n < fuel →
      digitsVal (natToDigitsAux fuel n) = n ∧
      natToDigitsAux fuel n ≠ [] ∧
      ∀ c ∈ natToDigitsAux fuel n, c ∈ "0123456789".data := by
  intro fuel
  induction fuel with
  | zero => intro n h; omega
  | succ f ih =>
    intro n h
    by_cases hn : n < 10
    · simp only [natToDigitsAux, hn, if_true]
      interval_cases n <;> exact ⟨by decide, by decide, by decide⟩
    · have h10 : 10 ≤ n := by omega
      have hdiv : n / 10 < f := by
        have hlt : n / 10 < n := Nat.div_lt_self (by omega) (by omega)
        omega
      obtain ⟨ihv, ihne, ihmem⟩ := ih (n / 10) hdiv
      simp only [natToDigitsAux, hn, if_false]
      refine ⟨?_, by simp, ?_⟩
      · rw [digitsVal_append, ihv]
        have hmod : n % 10 < 10 := Nat.mod_lt n (by omega)
        have hdc : (digitChar (n % 10)).toNat - 48 = n % 10 := by
          unfold digitChar
          interval_cases hc : n % 10 <;> decide
        rw [hdc]
        omega
      · intro c hc
        rcases List.mem_append.mp hc with hc1 | hc2
        · exact ihmem c hc1
        · have hmod : n % 10 < 10 := Nat.mod_lt n (by omega)
          have : c = digitChar (n % 10) := by simpa using hc2
          subst this
          unfold digitChar
          interval_cases hc : n % 10 <;> decide

/-- The decimal rendering of `n` parses back to `n`, is nonempty, and
contains only digits. -/
theorem natToDigits_spec (n : Nat) :
    digitsVal (natToDigits n) = n ∧ natToDigits n ≠ [] ∧
    ∀ c ∈ natToDigits n, c ∈ "0123456789".data :=
  natToDigitsAux_spec (n + 1) n (by omega)

/-- Character-class facts about decimal digit characters. -/
theorem digit_char_facts (c : Char) (h : c ∈ "0123456789".data) :
    Char.isDigit c = true ∧ isWs c = false ∧ c ≠ ',' ∧ c ≠ ':' ∧
    c ≠ '+' ∧ c ≠ '"' := by
  fin_cases h <;> exact ⟨by decide, by decide, by decide, by decide, by decide, by decide⟩

/-- `parseU64` on a list not starting with a sign is its digits-only body. -/
theorem parseU64_eq_core (l : List Char) (d : Char)
    (hh : l.head? = some d) (hp : d ≠ '+') : parseU64 l = parseU64Core l := by
  obtain ⟨t, rfl⟩ := List.head?_eq_some_iff.mp hh
  show (if d = '+' then parseU64Core t else parseU64Core (d :: t)) = parseU64Core (d :: t)
  rw [if_neg hp]

/-- Parsing inverts rendering for every `u64` value. -/
theorem parseU64_natToDigits (n : Nat) (h : n < 2 ^ 64) :
    parseU64 (natToDigits n) = some n := by
  obtain ⟨hval, hne, hmem⟩ := natToDigits_spec n
  obtain ⟨d, rest, hd⟩ : ∃ d rest, natToDigits n = d :: rest := by
    cases hcase : natToDigits n with
    | nil => exact absurd hcase hne
    | cons d rest => exact ⟨d, rest, rfl⟩
  have hdmem := hmem d (by rw [hd]; simp)
  rw [parseU64_eq_core (natToDigits n) d (by rw [hd]; rfl)
    (digit_char_facts d hdmem).2.2.2.2.1]
  unfold parseU64Core
  have halldig : (natToDigits n).all Char.isDigit = true := by
    rw [List.all_eq_true]
    intro c hc
    exact (digit_char_facts c (hmem c hc)).1
  rw [if_pos ⟨hne, halldig⟩, hval, if_pos h]

/-- The 26 lowercase letters, explicitly. -/
theorem isLowerAlpha_cases (c : Char) (h : isLowerAlpha c = true) :
    c ∈ "abcdefghijklmnopqrstuvwxyz".data := by
  unfold isLowerAlpha at h
  rw [List.any_eq_true] at h
  obtain ⟨p, hp, hpc⟩ := h
  have hc : p.2 = c := by simpa using hpc
  subst hc
  fin_cases hp <;> decide

/-- Character-class facts about lowercase letters. -/
theorem lower_char_facts (c : Char) (h : isLowerAlpha c = true) :
    isWs c = false ∧ c ≠ '"' ∧ c ≠ ',' ∧ c ≠ '\\' := by
  have hmem := isLowerAlpha_cases c h
  fin_cases hmem <;> exact ⟨by decide, by decide, by decide, by decide⟩

/-- Character-class facts about phrase characters (letters or spaces). -/
theorem phrase_char_facts (c : Char) (h : isLowerAlpha c = true ∨ c = ' ') :
    c ≠ '"' ∧ c ≠ ',' ∧ c ≠ '\\' := by
  cases h with
  | inl hl =>
    obtain ⟨_, hq, hcm, hb⟩ := lower_char_facts c hl
    exact ⟨hq, hcm, hb⟩
  | inr hs => subst hs; exact ⟨by decide, by decide, by decide⟩

/-- Escaping is the identity on quote-free text. -/
theorem escapeQuotes_id (l : List Char) (h : ∀ c ∈ l, c ≠ '"') :
    escapeQuotes l = l := by
  induction l with
  | nil => rfl
  | cons c rest ih =>
    have hc : c ≠ '"' := h c (by simp)
    unfold escapeQuotes
    rw [if_neg hc, ih (fun d hd => h d (by simp [hd]))]

/-- Unescaping is the identity on backslash-free text. -/
theorem unescapeQuotes_id (l : List Char) (h : ∀ c ∈ l, c ≠ '\\') :
    unescapeQuotes l = l := by
  induction l with
  | nil => rfl
  | cons c rest ih =>
    cases rest with
    | nil => rfl
    | cons c2 rest2 =>
      have hc : c ≠ '\\' := h c (by simp)
      unfold unescapeQuotes
      rw [if_neg (fun hand => hc hand.1)]
      rw [ih (fun d hd => h d (by simp [hd]))]

/-- The components of a well-shaped stored mnemonic. -/
theorem validMnemonic_facts (m : List Char) (h : validMnemonicShape m = true) :
    m ≠ [] ∧ (∀ c ∈ m, isLowerAlpha c = true ∨ c = ' ') ∧
    (∀ c, m.head? = some c → isLowerAlpha c = true) ∧
    (∀ c, m.getLast? = some c → isLowerAlpha c = true) := by
  unfold validMnemonicShape at h
  simp only [Bool.and_eq_true, Bool.not_eq_true', List.all_eq_true,
    Bool.or_eq_true, decide_eq_true_eq] at h
  obtain ⟨⟨⟨hne, hall⟩, hhead⟩, hlast⟩ := h
  refine ⟨List.isEmpty_eq_false.mp hne, hall, ?_, ?_⟩
  · intro c hc
    rw [List.headD_eq_head?, hc] at hhead
    exact hhead
  · intro c hc
    rw [List.getLastD_eq_getLast?, hc] at hlast
    exact hlast

/-- The field loop on the serialized mnemonic fragment stores the mnemonic
(with its wrapping quotes stripped and escapes undone) and keeps the
timestamp. -/
theorem processPart_mnemonic (m : List Char) (st2 : Nat)
    (hne : m ≠ []) (hall : ∀ c ∈ m, isLowerAlpha c = true ∨ c = ' ')
    (hhead : ∀ c, m.head? = some c → isLowerAlpha c = true)
    (hlast : ∀ c, m.getLast? = some c → isLowerAlpha c = true) :
    processPart ([], st2) ("\"mnemonic\":\"".data ++ (m ++ ['"'])) = .ok (m, st2) := by
  obtain ⟨mh, hmh⟩ : ∃ mh, m.head? = some mh := by
    cases m with
    | nil => exact absurd rfl hne
    | cons a t => exact ⟨a, rfl⟩
  obtain ⟨ml, hml⟩ : ∃ ml, m.getLast? = some ml := by
    cases hcase : m.getLast? with
    | none => exact absurd (List.getLast?_eq_none_iff.mp hcase) hne
    | some b => exact ⟨b, rfl⟩
  have hmhq : mh ≠ '"' := (lower_char_facts mh (hhead mh hmh)).2.1
  have hmlq : ml ≠ '"' := (lower_char_facts ml (hlast ml hml)).2.1
  have hnob : ∀ c ∈ m, c ≠ '\\' := fun c hc => (phrase_char_facts c (hall c hc)).2.2
  have hA : "\"mnemonic\":\"".data =
      ((('"' :: "mnemonic".data) ++ ['"']) ++ [':', '"'] : List Char) := by decide
  rw [hA, List.append_assoc]
  have hsplit : splitAtFirst ':'
      ((('"' :: "mnemonic".data) ++ ['"']) ++ ([':', '"'] ++ (m ++ ['"']))) =
      some (('"' :: "mnemonic".data) ++ ['"'], '"' :: (m ++ ['"'])) :=
    splitAtFirst_append ':' (('"' :: "mnemonic".data) ++ ['"']) ('"' :: (m ++ ['"']))
      (by decide)
  have hheadP : ((('"' :: "mnemonic".data) ++ ['"']) ++
      ([':', '"'] ++ (m ++ ['"']))).head? = some '"' := rfl
  have hlastP : ((('"' :: "mnemonic".data) ++ ['"']) ++
      ([':', '"'] ++ (m ++ ['"']))).getLast? = some '"' := by
    rw [List.getLast?_append, List.getLast?_append, List.getLast?_append]
    simp
  have htrimP := trimChars_eq_self _ '"' '"' hheadP (by decide) hlastP (by decide)
  have hvadd : ('"' :: (m ++ ['"'])) = (('"' :: m) ++ ['"']) :=
    (List.cons_append '"' m ['"']).symm
  have hvhead : ('"' :: (m ++ ['"'])).head? = some '"' := rfl
  have hvlast : ('"' :: (m ++ ['"'])).getLast? = some '"' := by
    rw [hvadd, List.getLast?_concat]
  have htrimv := trimChars_eq_self _ '"' '"' hvhead (by decide) hvlast (by decide)
  have hkey : trimQuotes (trimChars (('"' :: "mnemonic".data) ++ ['"'])) =
      "mnemonic".data := by decide
  have hwrap : trimQuotes (('"' :: m) ++ ['"']) = m :=
    trimQuotes_wrap m mh ml hmh hmhq hml hmlq
  simp only [processPart]
  rw [htrimP, hsplit]
  simp only [htrimv, hkey, eq_self_iff_true, if_true]
  rw [hvadd, hwrap, unescapeQuotes_id m hnob]

/-- The field loop on the serialized timestamp fragment stores the parsed
timestamp and keeps the mnemonic. -/
theorem processPart_created_at (st1 : List Char) (st2 : Nat) (n : Nat)
    (h : n < 2 ^ 64) :
    processPart (st1, st2) ("\"created_at\":".data ++ natToDigits n) = .ok (st1, n) := by
  obtain ⟨hval, hne, hmem⟩ := natToDigits_spec n
  obtain ⟨dh, hdh⟩ : ∃ dh, (natToDigits n).head? = some dh := by
    cases hcase : natToDigits n with
    | nil => exact absurd hcase hne
    | cons a t => exact ⟨a, rfl⟩
  obtain ⟨dl, hdl⟩ : ∃ dl, (natToDigits n).getLast? = some dl := by
    cases hcase : (natToDigits n).getLast? with
    | none => exact absurd (List.getLast?_eq_none_iff.mp hcase) hne
    | some b => exact ⟨b, rfl⟩
  have hdhmem : dh ∈ natToDigits n := List.mem_of_mem_head? hdh
  have hdlmem : dl ∈ natToDigits n := by
    rw [← List.head?_reverse] at hdl
    exact (List.mem_reverse).mp (List.mem_of_mem_head? hdl)
  have hdhws : isWs dh = false := (digit_char_facts dh (hmem dh hdhmem)).2.1
  have hdlws : isWs dl = false := (digit_char_facts dl (hmem dl hdlmem)).2.1
  have hB : "\"created_at\":".data =
      ((('"' :: "created_at".data) ++ ['"']) ++ [':'] : List Char) := by decide
  rw [hB, List.append_assoc]
  have hsplit : splitAtFirst ':'
      ((('"' :: "created_at".data) ++ ['"']) ++ ([':'] ++ natToDigits n)) =
      some (('"' :: "created_at".data) ++ ['"'], natToDigits n) :=
    splitAtFirst_append ':' (('"' :: "created_at".data) ++ ['"']) (natToDigits n)
      (by decide)
  have hheadP : ((('"' :: "created_at".data) ++ ['"']) ++
      ([':'] ++ natToDigits n)).head? = some '"' := rfl
  have hlastP : ((('"' :: "created_at".data) ++ ['"']) ++
      ([':'] ++ natToDigits n)).getLast? = some dl := by
    rw [List.getLast?_append, List.getLast?_append, hdl]
    rfl
  have htrimP := trimChars_eq_self _ '"' dl hheadP (by decide) hlastP hdlws
  have htrimv := trimChars_eq_self _ dh dl hdh hdhws hdl hdlws
  have hkey : trimQuotes (trimChars (('"' :: "created_at".data) ++ ['"'])) =
      "created_at".data := by decide
  have hparse := parseU64_natToDigits n h
  simp only [processPart]
  rw [htrimP, hsplit]
  simp only [htrimv, hkey]
  simp only [if_true, hparse]
  rw [if_neg (by decide)]

/-- A loop iteration whose extracted key is neither `mnemonic` nor
`created_at` leaves the state untouched. -/
theorem processPart_unknown (st : List Char × Nat) (part : List Char)
    (h1 : extractedKey part ≠ some ("mnemonic".data))
    (h2 : extractedKey part ≠ some ("created_at".data)) :
    processPart st part = .ok st := by
  unfold extractedKey at h1 h2
  simp only [processPart]
  split
  · rfl
  · rename_i kv k v heq
    rw [heq] at h1 h2
    simp only [Option.map_some', ne_eq, Option.some.injEq] at h1 h2
    rw [if_neg h1, if_neg h2]

/-- A loop iteration whose extracted key is not `mnemonic` either fails on
a malformed timestamp or keeps the mnemonic component empty. -/
theorem processPart_no_mnemonic (st2 : Nat) (p : List Char)
    (h : extractedKey p ≠ some ("mnemonic".data)) :
    processPart ([], st2) p = .error (.Deserialize "Invalid timestamp") ∨
    ∃ n, processPart ([], st2) p = .ok ([], n) := by
  unfold extractedKey at h
  simp only [processPart]
  split
  · right; exact ⟨st2, rfl⟩
  · rename_i kv k v heq
    rw [heq] at h
    simp only [Option.map_some', ne_eq, Option.some.injEq] at h
    rw [if_neg h]
    by_cases hca : trimQuotes (trimChars k) = "created_at".data
    · rw [if_pos hca]
      cases hparse : parseU64 (trimChars v) with
      | none => left; rfl
      | some n => right; exact ⟨n, rfl⟩
    · rw [if_neg hca]
      right; exact ⟨st2, rfl⟩

/-- The field loop over fragments without a `mnemonic` key either fails or
ends with an empty mnemonic component. -/
theorem foldlM_no_mnemonic (parts : List (List Char)) :
    ∀ st2 : Nat, (∀ part ∈ parts, extractedKey part ≠ some ("mnemonic".data)) →
      (List.foldlM processPart (([] : List Char), st2) parts =
        .error (.Deserialize "Invalid timestamp")) ∨
      (∃ n, List.foldlM processPart (([] : List Char), st2) parts = .ok ([], n)) := by
  induction parts with
  | nil => intro st2 h; right; exact ⟨st2, rfl⟩
  | cons p rest ih =>
    intro st2 h
    rcases processPart_no_mnemonic st2 p (h p (by simp)) with herr | ⟨n, hok⟩
    · left
      rw [List.foldlM_cons, herr]
      rfl
    · have hstep : List.foldlM processPart (([] : List Char), st2) (p :: rest) =
          List.foldlM processPart ([], n) rest := by
        rw [List.foldlM_cons, hok]
        rfl
      rw [hstep]
      exact ih n (fun q hq => h q (by simp [hq]))

/-- Round trip: deserializing the serialization of a well-formed stored
credential returns the credential. -/
theorem from_json_to_json (w : SecureWalletData)
    (hm : validMnemonicShape w.mnemonic = true) (ht : w.created_at < 2 ^ 64) :
    from_json (to_json w) = .ok w := by
  obtain ⟨hne, hall, hheadm, hlastm⟩ := validMnemonic_facts w.mnemonic hm
  obtain ⟨hdval, hdne, hdmem⟩ := natToDigits_spec w.created_at
  have hesc : escapeQuotes w.mnemonic = w.mnemonic :=
    escapeQuotes_id _ (fun c hc => (phrase_char_facts c (hall c hc)).1)
  have hsplitA : "\x7b\"mnemonic\":\"".data =
      ('\x7b' :: "\"mnemonic\":\"".data : List Char) := by decide
  have hsplitB : "\",\"created_at\":".data =
      ('"' :: ',' :: "\"created_at\":".data : List Char) := by decide
  have hsplitC : ("\x7d".data : List Char) = ['\x7d'] := by decide
  have hjson : to_json w =
      ('\x7b' :: (("\"mnemonic\":\"".data ++ (w.mnemonic ++ ['"'])) ++
        (',' :: ("\"created_at\":".data ++ natToDigits w.created_at)))) ++ ['\x7d'] := by
    simp only [to_json, hesc, hsplitA, hsplitB, hsplitC]
    simp [List.append_assoc]
  rw [hjson]
  have hheadJ : ((('\x7b' :: (("\"mnemonic\":\"".data ++ (w.mnemonic ++ ['"'])) ++
      (',' :: ("\"created_at\":".data ++ natToDigits w.created_at)))) ++ ['\x7d'])).head? =
      some '\x7b' := rfl
  have hlastJ : ((('\x7b' :: (("\"mnemonic\":\"".data ++ (w.mnemonic ++ ['"'])) ++
      (',' :: ("\"created_at\":".data ++ natToDigits w.created_at)))) ++ ['\x7d'])).getLast? =
      some '\x7d' := List.getLast?_concat _
  have htrimJ := trimChars_eq_self _ '\x7b' '\x7d' hheadJ (by decide) hlastJ (by decide)
  have hcontent : ((((('\x7b' :: (("\"mnemonic\":\"".data ++ (w.mnemonic ++ ['"'])) ++
      (',' :: ("\"created_at\":".data ++ natToDigits w.created_at)))) ++ ['\x7d'])).drop 1).dropLast) =
      (("\"mnemonic\":\"".data ++ (w.mnemonic ++ ['"'])) ++
        (',' :: ("\"created_at\":".data ++ natToDigits w.created_at))) := by
    rw [List.cons_append, List.drop_one, List.tail_cons, List.dropLast_concat]
  have hAcomma : ∀ d ∈ ("\"mnemonic\":\"".data : List Char), d ≠ ',' := by decide
  have hCcomma : ∀ d ∈ ("\"created_at\":".data : List Char), d ≠ ',' := by decide
  have hnoc1 : ∀ c ∈ "\"mnemonic\":\"".data ++ (w.mnemonic ++ ['"']), c ≠ ',' := by
    intro c hc
    rcases List.mem_append.mp hc with hc1 | hc2
    · exact hAcomma c hc1
    · rcases List.mem_append.mp hc2 with hc3 | hc4
      · exact (phrase_char_facts c (hall c hc3)).2.1
      · have hq : c = '"' := by simpa using hc4
        subst hq
        decide
  have hnoc2 : ∀ c ∈ "\"created_at\":".data ++ natToDigits w.created_at, c ≠ ',' := by
    intro c hc
    rcases List.mem_append.mp hc with hc1 | hc2
    · exact hCcomma c hc1
    · exact (digit_char_facts c (hdmem c hc2)).2.2.1
  have hparts : splitOnChar ','
      ((("\"mnemonic\":\"".data ++ (w.mnemonic ++ ['"'])) ++
        (',' :: ("\"created_at\":".data ++ natToDigits w.created_at)))) =
      [("\"mnemonic\":\"".data ++ (w.mnemonic ++ ['"'])),
       ("\"created_at\":".data ++ natToDigits w.created_at)] := by
    rw [splitOnChar_append ',' _ _ hnoc1,
      splitOnChar_no_target ',' _ hnoc2]
  have h1 := processPart_mnemonic w.mnemonic 0 hne hall hheadm hlastm
  have h2 := processPart_created_at w.mnemonic 0 w.created_at ht
  have hfold : List.foldlM processPart (([] : List Char), 0)
      [("\"mnemonic\":\"".data ++ (w.mnemonic ++ ['"'])),
       ("\"created_at\":".data ++ natToDigits w.created_at)] =
      .ok (w.mnemonic, w.created_at) := by
    rw [List.foldlM_cons, h1]
    show List.foldlM processPart (w.mnemonic, 0)
      [("\"created_at\":".data ++ natToDigits w.created_at)] = _
    rw [List.foldlM_cons, h2]
    rfl
  simp only [from_json, htrimJ, hcontent, hparts, hfold]
  rw [if_pos ⟨hheadJ, hlastJ⟩]
  simp only [if_neg hne]

/-- C6: for every stored credential whose mnemonic has the shape of a
valid recovery phrase and whose timestamp is an unsigned 64-bit value,
deserializing the serialization returns the original record; a fragment
whose extracted key is neither `mnemonic` nor `created_at` (an unknown
field) leaves the parse state untouched; and an input none of whose
fragments carries a `mnemonic` key fails with a `Deserialize` error. -/
theorem C6_stored_credential_roundtrip (w : SecureWalletData)
    (st : List Char × Nat) (part json : List Char) :
    (validMnemonicShape w.mnemonic = true → w.created_at < 2 ^ 64 →
      from_json (to_json w) = .ok w) ∧
    (extractedKey part ≠ some ("mnemonic".data) →
     extractedKey part ≠ some ("created_at".data) →
      processPart st part = .ok st) ∧
    ((∀ p ∈ splitOnChar ',' (((trimChars json).drop 1).dropLast),
        extractedKey p ≠ some ("mnemonic".data)) →
      ∃ msg, from_json json = .error (.Deserialize msg)) := by
  refine ⟨from_json_to_json w, processPart_unknown st part, ?_⟩
  intro hno
  unfold from_json
  by_cases hbrace : (trimChars json).head? = some '\x7b' ∧
      (trimChars json).getLast? = some '\x7d'
  · rw [if_pos hbrace]
    rcases foldlM_no_mnemonic
      (splitOnChar ',' (((trimChars json).drop 1).dropLast)) 0 hno with herr | ⟨n, hok⟩
    · simp only [herr]
      exact ⟨"Invalid timestamp", rfl⟩
    · simp only [hok]
      refine ⟨"Missing mnemonic", ?_⟩
      simp
  · rw [if_neg hbrace]
    exact ⟨"Invalid JSON format", rfl⟩

/-- Witness for C6: a concrete three-word phrase round trips; a concrete
unknown field is skipped; a concrete input without a mnemonic field is
rejected. -/
theorem C6_stored_credential_roundtrip_witness :
    validMnemonicShape ("abandon ability able".data) = true ∧
    (1700000000 : Nat) < 2 ^ 64 ∧
    from_json (to_json ⟨"abandon ability able".data, 1700000000⟩) =
      .ok ⟨"abandon ability able".data, 1700000000⟩ ∧
    processPart ("seed".data, 3) "\"note\":\"hello\"".data = .ok ("seed".data, 3) ∧
    (∃ msg, from_json "\x7b\"created_at\":5\x7d".data = .error (.Deserialize msg)) := by
  refine ⟨by decide, by decide, ?_, ?_, ?_⟩
  · exact (C6_stored_credential_roundtrip ⟨"abandon ability able".data, 1700000000⟩
      ("seed".data, 3) "\"note\":\"hello\"".data "\x7b\"created_at\":5\x7d".data).1
      (by decide) (by decide)
  · exact (C6_stored_credential_roundtrip ⟨"abandon ability able".data, 1700000000⟩
      ("seed".data, 3) "\"note\":\"hello\"".data "\x7b\"created_at\":5\x7d".data).2.1
      (by decide) (by decide)
  · exact (C6_stored_credential_roundtrip ⟨"abandon ability able".data, 1700000000⟩
      ("seed".data, 3) "\"note\":\"hello\"".data "\x7b\"created_at\":5\x7d".data).2.2
      (by decide)

end GalaWallet
